import Mathlib

/-!
Shallow embedding of the cfit GPU-memory estimator — `src/cfit/utils.py`,
`src/cfit/core.py` and `src/cfit/cli.py` — together with proofs about its
specified behaviour.

Real-number arithmetic that the Python source performs on IEEE doubles is
idealised here as exact rational arithmetic over `ℚ`, and Python's fixed-width
decimal formatting (`"{:.1f}"`, `"{:.2f}"`) is idealised as exact half-up
rounding of the true rational value.  String data is modelled as `List Char`,
matching the structure `String` has in this toolchain.
-/

namespace Cfit

/-! ## Decimal digit rendering helpers (model of Python `str` on integers) -/

/-- Numeric value of a decimal digit character. -/
def digitVal (c : Char) : ℕ := c.toNat - 48

/-- Decimal digit character of a value below ten. -/
def digitChar (d : ℕ) : Char := Char.ofNat (48 + d)

/-- Little-endian decimal digits of a natural number, driven by a fuel
argument so the recursion is structural. -/
def natDigitsAux : ℕ → ℕ → List ℕ
  | 0, _ => []
  | _ + 1, 0 => []
  | fuel + 1, n + 1 => (n + 1) % 10 :: natDigitsAux fuel ((n + 1) / 10)

/-- Little-endian decimal digits of a natural number (empty for zero). -/
def natDigits (n : ℕ) : List ℕ := natDigitsAux n n

/-- Most-significant-first decimal digit list, with `[0]` for zero. -/
def digitList (n : ℕ) : List ℕ := if n = 0 then [0] else (natDigits n).reverse

/-- Decimal rendering of a natural number, as Python `str` produces it. -/
def natRepr (n : ℕ) : String := ⟨(digitList n).map digitChar⟩

/-- Value of a most-significant-first decimal digit list. -/
def digitsToNat (ds : List ℕ) : ℕ := ds.foldl (fun a d => a * 10 + d) 0

/-! ## `utils.py` -/

/-- `utils.calculate_memory` (utils.py lines 83–89):
`(total_parameters * 4) / (32 / precision) * 1.2`. -/
def calculate_memory (total_parameters precision : ℕ) : ℚ :=
  ((total_parameters : ℚ) * 4) / (32 / (precision : ℚ)) * 1.2

/-- Fixed two-decimal rendering of a non-negative rational, modelling Python's
`"{:.2f}"` (decimal rounding idealised as exact half-up). -/
def fmtTwoDecimals (q : ℚ) : String :=
  natRepr ((⌊q * 100 + 1 / 2⌋).toNat / 100) ++ "." ++
    natRepr ((⌊q * 100 + 1 / 2⌋).toNat % 100 / 10) ++
    natRepr ((⌊q * 100 + 1 / 2⌋).toNat % 10)

/-- `utils.convert_bytes_to_human_readable` (utils.py lines 92–99): gigabytes
when `bytes / 1024 ^ 3` is at least one, megabytes otherwise. -/
def convert_bytes_to_human_readable (bytes_value : ℚ) : String :=
  if 1 ≤ bytes_value / 1024 ^ 3 then fmtTwoDecimals (bytes_value / 1024 ^ 3) ++ " GB"
  else fmtTwoDecimals (bytes_value / 1024 ^ 2) ++ " MB"

/-- Longest prefix of decimal-digit characters of a character list, together
with the remainder (the `\d+` steps of the source regexes). -/
def takeDigitChars : List Char → List Char × List Char
  | [] => ([], [])
  | c :: cs =>
    if c.isDigit then (c :: (takeDigitChars cs).1, (takeDigitChars cs).2)
    else ([], c :: cs)

/-- Multiplier attached to a lowercase unit letter, from `utils.ModelSizeUnit`
and the `size_mapping` of `utils.parse_model_size`. -/
def unitMult (c : Char) : Option ℕ :=
  if c = 'm' then some (10 ^ 6)
  else if c = 'b' then some (10 ^ 9)
  else if c = 't' then some (10 ^ 12)
  else none

/-- Greedy scan of the number part `(\d+(\.\d+)?)` of the regex in
`utils.parse_model_size`: the integer digits, the fractional digits (empty when
no `.<digits>` group matches) and the remaining characters. -/
def scanNumber (cs : List Char) : Option ((List Char × List Char) × List Char) :=
  if (takeDigitChars cs).1 = [] then none
  else
    match (takeDigitChars cs).2 with
    | c :: cs2 =>
      if c = '.' then
        if (takeDigitChars cs2).1 = [] then some (((takeDigitChars cs).1, []), (takeDigitChars cs).2)
        else some (((takeDigitChars cs).1, (takeDigitChars cs2).1), (takeDigitChars cs2).2)
      else some (((takeDigitChars cs).1, []), (takeDigitChars cs).2)
    | [] => some (((takeDigitChars cs).1, []), (takeDigitChars cs).2)

/-- `utils.parse_model_size` on an already lowercased character list
(utils.py lines 102–113): match `(\d+(\.\d+)?)([mbt])` at the start of the
input — unanchored at the end, as `re.match` is — and return
`int(float(number) * multiplier)`. -/
def parseCore (cs : List Char) : Option ℕ :=
  match scanNumber cs with
  | none => none
  | some ((ds, fs), rest) =>
    match rest with
    | [] => none
    | u :: _ =>
      match unitMult u with
      | none => none
      | some mult =>
        some ((⌊((digitsToNat (ds.map digitVal) : ℚ) +
          (digitsToNat (fs.map digitVal) : ℚ) / 10 ^ fs.length) * (mult : ℚ)⌋).toNat)

/-- `utils.parse_model_size`: lowercase the input, then scan. -/
def parse_model_size (s : String) : Option ℕ :=
  parseCore (s.data.map Char.toLower)

/-- Pure natural-number form of `parseCore`: the truncated value
`int(float("I.F") * mult)` equals `(I * 10^L + F) * mult / 10^L` where `L`
counts the fractional digits.  Proved equal to `parseCore` below; used to
evaluate concrete parses without rational arithmetic. -/
def parseCoreN (cs : List Char) : Option ℕ :=
  match scanNumber cs with
  | none => none
  | some ((ds, fs), rest) =>
    match rest with
    | [] => none
    | u :: _ =>
      match unitMult u with
      | none => none
      | some mult =>
        some ((digitsToNat (ds.map digitVal) * 10 ^ fs.length +
          digitsToNat (fs.map digitVal)) * mult / 10 ^ fs.length)

/-- One-decimal rendering `f"{n / t:.1f}" + unit` used by
`utils.format_model_size` (decimal rounding idealised as exact half-up on the
true rational `n / t`; the rounded tenths value is `(10 * n + t / 2) / t`). -/
def fmtOneDecimal (n t : ℕ) (u : Char) : String :=
  natRepr ((10 * n + t / 2) / t / 10) ++ "." ++
    natRepr ((10 * n + t / 2) / t % 10) ++ String.singleton u

/-- `utils.format_model_size` (utils.py lines 116–129): thresholds tried in
the order trillion, billion, million; below a million the plain decimal
rendering of the integer. -/
def format_model_size (size_int : ℕ) : String :=
  if 10 ^ 12 ≤ size_int then fmtOneDecimal size_int (10 ^ 12) 'T'
  else if 10 ^ 9 ≤ size_int then fmtOneDecimal size_int (10 ^ 9) 'B'
  else if 10 ^ 6 ≤ size_int then fmtOneDecimal size_int (10 ^ 6) 'M'
  else natRepr size_int

/-- `utils.estimate_parameters` (utils.py lines 132–140):
`ceil(file_size_bytes * 8 / precision)`. -/
def estimate_parameters (file_size_bytes precision : ℕ) : ℤ :=
  ⌈((file_size_bytes : ℚ) * 8) / (precision : ℚ)⌉

/-! ## `core.py` -/

/-- The four members of `utils.Precision`, in declaration order (the order
`for precision in Precision` iterates them). -/
def precisionValues : List ℕ := [32, 16, 8, 4]

/-- `core.calculate_all_precisions` (core.py lines 94–107): a header line and
one indented bullet line per precision. -/
def calculate_all_precisions (num_params : ℕ) (model_name_or_path : Option String) : String :=
  match model_name_or_path with
  | some name =>
    "Required GPU Memory[" ++ name ++ ", parameters: " ++
      format_model_size num_params ++ "]" ++ "\n" ++
      String.intercalate ("\n") (precisionValues.map (fun precision =>
        "  - " ++ natRepr precision ++ "bit: " ++
          convert_bytes_to_human_readable (calculate_memory num_params precision)))
  | none =>
    "Required GPU Memory[parameters: " ++
      format_model_size num_params ++ "]" ++ "\n" ++
      String.intercalate ("\n") (precisionValues.map (fun precision =>
        "  - " ++ natRepr precision ++ "bit: " ++
          convert_bytes_to_human_readable (calculate_memory num_params precision)))

/-- The `precision == "all"` branch of `core.from_hf` (core.py lines 67–68):
the fetched file size itself is handed to `calculate_all_precisions` in the
`num_params` position. -/
def from_hf_allBranch (model_name_or_path : String) (model_size : ℕ) : String :=
  calculate_all_precisions model_size (some model_name_or_path)

/-- The same branch as the specification describes it: the parameter count is
first obtained via `estimate_parameters` at a nominal 32-bit precision, and
that count is what reaches the all-precisions renderer. -/
def from_hf_allBranch_specVersion (model_name_or_path : String) (model_size : ℕ) : String :=
  calculate_all_precisions (estimate_parameters model_size 32).toNat (some model_name_or_path)

/-- Return type of `core.determine_precision`: the Python function is annotated
`-> int`, but on the `"quantization"` fallback path it can also return the raw
`torch_dtype` string. -/
inductive DtypeOrInt where
  | intVal : ℤ → DtypeOrInt
  | strVal : String → DtypeOrInt
deriving DecidableEq

/-- The fields of the configuration mapping that `core.determine_precision`
reads: an optional `"quantization"` entry with an optional integer `"bits"`
field, an optional `"quantization_config"` entry carrying the truthiness of
`"load_in_4bit"` and `"load_in_8bit"`, and an optional `"torch_dtype"`
string. -/
structure ModelConfig where
  quantization : Option (Option ℤ)
  quantization_config : Option (Bool × Bool)
  torch_dtype : Option String

/-- `utils.PRECISION_MAP.get(dtype, Precision.BITS_32)`. -/
def precisionMapLookup (dtype : Option String) : ℤ :=
  match dtype with
  | none => 32
  | some s =>
    if s = "float32" then 32
    else if s = "float16" then 16
    else if s = "bfloat16" then 16
    else if s = "int8" then 8
    else if s = "int4" then 4
    else 32

/-- `core.determine_precision` (core.py lines 37–49). -/
def determine_precision (model_config : ModelConfig) : DtypeOrInt :=
  match model_config.quantization with
  | some q =>
    match q with
    | some bits => DtypeOrInt.intVal bits
    | none =>
      match model_config.torch_dtype with
      | some d => DtypeOrInt.strVal d
      | none => DtypeOrInt.intVal 32
  | none =>
    match model_config.quantization_config with
    | some qc =>
      if qc.1 then DtypeOrInt.intVal 4
      else if qc.2 then DtypeOrInt.intVal 8
      else DtypeOrInt.intVal (precisionMapLookup model_config.torch_dtype)
    | none => DtypeOrInt.intVal (precisionMapLookup model_config.torch_dtype)

/-! ## `cli.py` -/

/-- Remainder after the optional fractional group of the anchored routing
regex `^\d+(?:\.\d+)?[MBTmbt]$` of `cli.cli` (cli.py line 17). -/
def cliRest2 (cs : List Char) : List Char :=
  match (takeDigitChars cs).2 with
  | c :: cs2 =>
    if c = '.' then
      if (takeDigitChars cs2).1 = [] then (takeDigitChars cs).2 else (takeDigitChars cs2).2
    else (takeDigitChars cs).2
  | [] => (takeDigitChars cs).2

/-- The anchored routing regex `^\d+(?:\.\d+)?[MBTmbt]$` of `cli.cli`. -/
def cliPatternCore (cs : List Char) : Bool :=
  if (takeDigitChars cs).1 = [] then false
  else
    match cliRest2 cs with
    | [u] => u == 'M' || u == 'B' || u == 'T' || u == 'm' || u == 'b' || u == 't'
    | _ => false

/-- Whether the raw positional argument matches the routing regex. -/
def cliParamPattern (s : String) : Bool := cliPatternCore s.data

/-- Which entry point a raw textual argument reaches. -/
inductive CliRoute where
  | explicitCount : CliRoute
  | registryModel : CliRoute
deriving DecidableEq

/-- Routing decision of `cli.cli`: the argparse positional value is always a
string, so only the regex test decides the branch. -/
def cli_route (s : String) : CliRoute :=
  if cliParamPattern s then CliRoute.explicitCount else CliRoute.registryModel

/-- Precision coercion of `cli.cli`: in the explicit-count branch an "auto"
selector is replaced by "all" before `from_params` is called; the registry
branch passes the selector through. -/
def cli_coerce_precision (r : CliRoute) (precision : String) : String :=
  match r with
  | CliRoute.explicitCount => if precision = "auto" then "all" else precision
  | CliRoute.registryModel => precision

/-! ## The specification's size-label pattern -/

/-- The specification's size-label pattern `<digits>[.<digits>]<unit>` with
unit in `{m, b, t}`, matched as a prefix of the character list (trailing
characters allowed). -/
def matchesL (cs : List Char) : Prop :=
  ∃ ds opt u rest, cs = ds ++ opt ++ u :: rest ∧ ds ≠ [] ∧
    (∀ c ∈ ds, c.isDigit = true) ∧
    (opt = [] ∨ ∃ fs, fs ≠ [] ∧ (∀ c ∈ fs, c.isDigit = true) ∧ opt = '.' :: fs) ∧
    (u = 'm' ∨ u = 'b' ∨ u = 't')

/-- Case-insensitive prefix match of the size-label pattern on a string. -/
def sizePrefixMatch (s : String) : Prop := matchesL (s.data.map Char.toLower)

/-- Case-insensitive full match of the size-label pattern — the whole string is
`<digits>[.<digits>]<unit>` — which is how the specification's wording reads. -/
def sizeFullMatch (s : String) : Prop :=
  ∃ ds opt u, s.data.map Char.toLower = ds ++ opt ++ [u] ∧ ds ≠ [] ∧
    (∀ c ∈ ds, c.isDigit = true) ∧
    (opt = [] ∨ ∃ fs, fs ≠ [] ∧ (∀ c ∈ fs, c.isDigit = true) ∧ opt = '.' :: fs) ∧
    (u = 'm' ∨ u = 'b' ∨ u = 't')

/-! ## Claim theorems: the memory formula -/

/-- C4: for every non-negative parameter count the memory estimate is
non-negative and monotonically ordered across the precisions 32 ≥ 16 ≥ 8 ≥ 4. -/
theorem calculate_memory_monotone (p : ℕ) :
    0 ≤ calculate_memory p 4 ∧
    calculate_memory p 4 ≤ calculate_memory p 8 ∧
    calculate_memory p 8 ≤ calculate_memory p 16 ∧
    calculate_memory p 16 ≤ calculate_memory p 32 := by
  have hp : (0 : ℚ) ≤ (p : ℚ) := Nat.cast_nonneg p
  refine ⟨?_, ?_, ?_, ?_⟩ <;>
    · unfold calculate_memory
      push_cast
      ring_nf
      nlinarith [hp]

/-- C1: for every parameter count and enumerated precision, `calculate_memory`
is exactly `(p * 4) / (32 / precision) * 1.2`; at seven billion parameters and
16-bit precision this is 16 800 000 000 bytes, which humanizes to
"15.65 GB". -/
theorem calculate_memory_formula (p precision : ℕ)
    (hprec : precision = 32 ∨ precision = 16 ∨ precision = 8 ∨ precision = 4) :
    calculate_memory p precision = ((p : ℚ) * 4) / (32 / (precision : ℚ)) * 1.2 ∧
    calculate_memory 7000000000 16 = 16800000000 ∧
    convert_bytes_to_human_readable (calculate_memory 7000000000 16) = "15.65 GB" := by
  have h : calculate_memory 7000000000 16 = 16800000000 := by norm_num [calculate_memory]
  refine ⟨rfl, h, ?_⟩
  rw [h]
  unfold convert_bytes_to_human_readable fmtTwoDecimals
  norm_num
  decide

/-- Witness for C1 at `p = 7000000000`, `precision = 16`. -/
theorem calculate_memory_formula_witness :
    calculate_memory 7000000000 16 =
      ((7000000000 : ℚ) * 4) / (32 / ((16 : ℕ) : ℚ)) * 1.2 ∧
    calculate_memory 7000000000 16 = 16800000000 ∧
    convert_bytes_to_human_readable (calculate_memory 7000000000 16) = "15.65 GB" :=
  calculate_memory_formula 7000000000 16 (Or.inr (Or.inl rfl))

/-- C5: `estimate_parameters` is the ceiling of `file_size * 8 / precision`,
never below the exact quotient, and non-decreasing in the file size. -/
theorem estimate_parameters_ceil_mono (f1 f2 precision : ℕ)
    (hprec : precision = 32 ∨ precision = 16 ∨ precision = 8 ∨ precision = 4)
    (hf : f1 ≤ f2) :
    estimate_parameters f1 precision = ⌈((f1 : ℚ) * 8) / (precision : ℚ)⌉ ∧
    ((f1 : ℚ) * 8) / (precision : ℚ) ≤ (estimate_parameters f1 precision : ℚ) ∧
    estimate_parameters f1 precision ≤ estimate_parameters f2 precision := by
  refine ⟨rfl, Int.le_ceil _, ?_⟩
  unfold estimate_parameters
  have hpos : (0 : ℚ) < (precision : ℚ) := by
    rcases hprec with rfl | rfl | rfl | rfl <;> norm_num
  exact Int.ceil_le_ceil ((div_le_div_right hpos).mpr
    (mul_le_mul_of_nonneg_right (by exact_mod_cast hf) (by norm_num)))

/-- Witness for C5 at `f1 = 3`, `f2 = 5`, `precision = 32`. -/
theorem estimate_parameters_ceil_mono_witness :
    estimate_parameters 3 32 = ⌈((3 : ℚ) * 8) / ((32 : ℕ) : ℚ)⌉ ∧
    ((3 : ℚ) * 8) / ((32 : ℕ) : ℚ) ≤ (estimate_parameters 3 32 : ℚ) ∧
    estimate_parameters 3 32 ≤ estimate_parameters 5 32 :=
  estimate_parameters_ceil_mono 3 5 32 (Or.inl rfl) (by norm_num)

/-! ## Scanner lemmas -/

/-- The scanned digit prefix and the remainder reassemble the input. -/
theorem takeDigitChars_append_eq (cs : List Char) :
    (takeDigitChars cs).1 ++ (takeDigitChars cs).2 = cs := by
  induction cs with
  | nil => rfl
  | cons c cs ih =>
    unfold takeDigitChars
    by_cases hc : c.isDigit
    · simp [hc, ih]
    · simp [hc]

/-- Every character of the scanned digit prefix is a digit. -/
theorem takeDigitChars_all_digits (cs : List Char) :
    ∀ c ∈ (takeDigitChars cs).1, c.isDigit = true := by
  induction cs with
  | nil => intro c hc; simp [takeDigitChars] at hc
  | cons c cs ih =>
    intro d hd
    unfold takeDigitChars at hd
    by_cases hc : c.isDigit
    · simp only [hc, if_true] at hd
      rcases List.mem_cons.mp hd with rfl | hd
      · exact hc
      · exact ih d hd
    · simp [hc] at hd

/-- The remainder left by the scan does not start with a digit. -/
theorem takeDigitChars_head_not_digit (cs : List Char) :
    ∀ c r', (takeDigitChars cs).2 = c :: r' → c.isDigit = false := by
  induction cs with
  | nil => intro c r' h; simp [takeDigitChars] at h
  | cons c cs ih =>
    intro d r' hd
    unfold takeDigitChars at hd
    by_cases hc : c.isDigit
    · simp only [hc, if_true] at hd
      exact ih d r' hd
    · rw [if_neg hc] at hd
      simp only [List.cons.injEq] at hd
      obtain ⟨rfl, -⟩ := hd
      simpa using hc

/-- Greedy maximality: on a digit prefix followed by a non-digit (or empty)
remainder, the scan returns exactly that split. -/
theorem takeDigitChars_eq (p rest : List Char) (hp : ∀ c ∈ p, c.isDigit = true)
    (hr : ∀ c r', rest = c :: r' → c.isDigit = false) :
    takeDigitChars (p ++ rest) = (p, rest) := by
  induction p with
  | nil =>
    simp only [List.nil_append]
    cases rest with
    | nil => rfl
    | cons c r' =>
      unfold takeDigitChars
      rw [hr c r' rfl]
      simp
  | cons c p ih =>
    have hc : c.isDigit = true := hp c (List.mem_cons_self c p)
    simp only [List.cons_append]
    unfold takeDigitChars
    rw [hc]
    simp only [if_true, ih (fun d hd => hp d (List.mem_cons_of_mem c hd))]

/-! ## Claim theorems: precision resolution and the registry all-precisions path -/

/-- C3: on a configuration carrying a `"quantization"` entry without a
`"bits"` field, `determine_precision` returns the raw `torch_dtype` string —
not the dtype-derived integer precision the specification promises — and a
present `"bits"` field is returned unvalidated, so the result need not lie in
{32, 16, 8, 4}. -/
theorem determine_precision_dtype_string_bug :
    determine_precision (ModelConfig.mk (some none) none (some ("float16"))) =
      DtypeOrInt.strVal ("float16") ∧
    (∀ n : ℤ, DtypeOrInt.strVal ("float16") ≠ DtypeOrInt.intVal n) ∧
    determine_precision (ModelConfig.mk (some (some 6)) none none) = DtypeOrInt.intVal 6 :=
  ⟨rfl, fun _ h => DtypeOrInt.noConfusion h, rfl⟩

/-- C2: the `precision == "all"` branch of `from_hf` hands the raw fetched
file size to `calculate_all_precisions` as the parameter count; it does not
first call `estimate_parameters` at a nominal 32-bit precision as specified,
and at a file size of 2^30 bytes the two behaviours render different
reports. -/
theorem from_hf_all_raw_size_bug :
    (∀ (name : String) (model_size : ℕ),
      from_hf_allBranch name model_size = calculate_all_precisions model_size (some name)) ∧
    estimate_parameters (2 ^ 30) 32 = 2 ^ 28 ∧
    from_hf_allBranch ("m") (2 ^ 30) ≠ from_hf_allBranch_specVersion ("m") (2 ^ 30) := by
  have hest : estimate_parameters (2 ^ 30) 32 = 2 ^ 28 := by
    unfold estimate_parameters
    rw [show ((2 ^ 30 : ℕ) : ℚ) * 8 / ((32 : ℕ) : ℚ) = ((2 ^ 28 : ℕ) : ℚ) by push_cast; norm_num]
    rw [Int.ceil_natCast]
    norm_num
  refine ⟨fun name ms => rfl, hest, ?_⟩
  unfold from_hf_allBranch from_hf_allBranch_specVersion
  rw [hest]
  unfold calculate_all_precisions precisionValues calculate_memory
    convert_bytes_to_human_readable fmtTwoDecimals format_model_size fmtOneDecimal
  norm_num
  decide

/-- C7: `convert_bytes_to_human_readable` renders gigabytes exactly when the
byte count is at least `2^30` and megabytes otherwise, with the stated
boundary examples. -/
theorem convert_bytes_boundary (b : ℚ) :
    (2 ^ 30 ≤ b → convert_bytes_to_human_readable b = fmtTwoDecimals (b / 1024 ^ 3) ++ " GB") ∧
    (b < 2 ^ 30 → convert_bytes_to_human_readable b = fmtTwoDecimals (b / 1024 ^ 2) ++ " MB") ∧
    convert_bytes_to_human_readable (2 ^ 30) = "1.00 GB" ∧
    convert_bytes_to_human_readable (2 ^ 20) = "1.00 MB" ∧
    convert_bytes_to_human_readable (2 ^ 30 - 1) = "1024.00 MB" := by
  refine ⟨?_, ?_, ?_, ?_, ?_⟩
  · intro h
    have hc : (1 : ℚ) ≤ b / 1024 ^ 3 := by
      rw [one_le_div (by norm_num)]
      norm_num at h ⊢
      linarith
    unfold convert_bytes_to_human_readable
    rw [if_pos hc]
  · intro h
    have hc : ¬ (1 : ℚ) ≤ b / 1024 ^ 3 := by
      rw [one_le_div (by norm_num)]
      norm_num at h ⊢
      linarith
    unfold convert_bytes_to_human_readable
    rw [if_neg hc]
  · unfold convert_bytes_to_human_readable fmtTwoDecimals
    norm_num
    decide
  · unfold convert_bytes_to_human_readable fmtTwoDecimals
    norm_num
    decide
  · unfold convert_bytes_to_human_readable fmtTwoDecimals
    norm_num
    decide

/-- Witness for C7 at the boundary input `2^30`. -/
theorem convert_bytes_boundary_witness :
    convert_bytes_to_human_readable (2 ^ 30) =
      fmtTwoDecimals ((2 ^ 30 : ℚ) / 1024 ^ 3) ++ " GB" :=
  (convert_bytes_boundary (2 ^ 30)).1 (le_refl _)

/-! ## Claim theorems: command-line routing -/

/-- C9 (amended): a string routes to the explicit-count entry point exactly
when it matches the anchored `<digits>[.<digits>]<M|B|T|m|b|t>` regex; in
particular a bare numeral (all digits, no unit letter) routes to the registry
query, and the "auto" selector is coerced to "all" only in the explicit-count
branch. -/
theorem cli_routing_amended :
    (∀ s : String, cli_route s = CliRoute.explicitCount ↔ cliParamPattern s = true) ∧
    (∀ s : String, s.data ≠ [] → (∀ c ∈ s.data, c.isDigit = true) →
      cli_route s = CliRoute.registryModel) ∧
    cli_coerce_precision CliRoute.explicitCount ("auto") = "all" ∧
    (∀ p : String, cli_coerce_precision CliRoute.registryModel p = p) := by
  refine ⟨?_, ?_, rfl, fun p => rfl⟩
  · intro s
    unfold cli_route
    cases h : cliParamPattern s <;> simp [h]
  · intro s hne hdig
    have h : takeDigitChars s.data = (s.data, []) := by
      have := takeDigitChars_eq s.data [] hdig (fun c r' hcr => by simp at hcr)
      simpa using this
    unfold cli_route cliParamPattern cliPatternCore cliRest2
    rw [h]
    simp [hne]

/-- Witness for C9 on the bare numeral "777". -/
theorem cli_routing_amended_witness :
    cli_route ("777") = CliRoute.registryModel :=
  cli_routing_amended.2.1 ("777") (by decide) (by decide)

/-- Counterexample for C9 as stated: the bare numeral "123" does NOT route to
the explicit-count query; the argparse value is a string, so the
`isinstance(int)` test never fires and "123" fails the unit-letter regex. -/
theorem cli_route_bare_numeral_counterexample :
    cli_route ("123") = CliRoute.registryModel ∧
    CliRoute.registryModel ≠ CliRoute.explicitCount := by
  exact ⟨by decide, by decide⟩

/-! ## Decimal rendering lemmas -/

/-- The fuel-driven digit recursion agrees with Mathlib's `Nat.digits`. -/
theorem natDigitsAux_eq (fuel : ℕ) : ∀ n, n ≤ fuel → natDigitsAux fuel n = Nat.digits 10 n := by
  induction fuel with
  | zero =>
    intro n hn
    interval_cases n
    simp [natDigitsAux]
  | succ fuel ih =>
    intro n hn
    cases n with
    | zero => simp [natDigitsAux]
    | succ m =>
      rw [natDigitsAux, Nat.digits_def' (by norm_num : (1 : ℕ) < 10) (Nat.succ_pos m)]
      rw [ih ((m + 1) / 10) (by omega)]

/-- `natDigits` agrees with Mathlib's `Nat.digits` base 10. -/
theorem natDigits_eq (n : ℕ) : natDigits n = Nat.digits 10 n :=
  natDigitsAux_eq n n le_rfl

/-- Every entry of `digitList` is a decimal digit. -/
theorem digitList_lt (n : ℕ) : ∀ d ∈ digitList n, d < 10 := by
  intro d hd
  unfold digitList at hd
  by_cases h : n = 0
  · rw [if_pos h] at hd
    simp at hd
    omega
  · rw [if_neg h, natDigits_eq, List.mem_reverse] at hd
    exact Nat.digits_lt_base (by norm_num) hd

/-- `digitList` is never empty. -/
theorem digitList_ne_nil (n : ℕ) : digitList n ≠ [] := by
  unfold digitList
  by_cases h : n = 0
  · simp [h]
  · rw [if_neg h]
    simp [natDigits_eq, Nat.digits_ne_nil_iff_ne_zero.mpr h]

/-- Folding most-significant-first digits over an accumulator. -/
theorem foldl_reverse_ofDigits (l : List ℕ) (acc : ℕ) :
    List.foldl (fun a d => a * 10 + d) acc l.reverse =
      acc * 10 ^ l.length + Nat.ofDigits 10 l := by
  induction l generalizing acc with
  | nil => simp
  | cons d t ih =>
    rw [List.reverse_cons, List.foldl_append, ih]
    simp only [List.foldl_cons, List.foldl_nil, Nat.ofDigits_cons, List.length_cons]
    ring

/-- `digitsToNat` recovers the value rendered into `digitList`. -/
theorem digitsToNat_digitList (n : ℕ) : digitsToNat (digitList n) = n := by
  unfold digitsToNat digitList
  by_cases h : n = 0
  · simp [h]
  · rw [if_neg h, natDigits_eq, foldl_reverse_ofDigits, Nat.ofDigits_digits]
    simp

/-- A single digit renders as a one-element digit list. -/
theorem digitList_single (d : ℕ) (hd : d < 10) : digitList d = [d] := by
  unfold digitList
  by_cases h : d = 0
  · simp [h]
  · rw [if_neg h, natDigits_eq, Nat.digits_of_lt 10 d h hd]
    rfl

/-- Digit characters are digits. -/
theorem digitChar_isDigit (d : ℕ) (hd : d < 10) : (digitChar d).isDigit = true := by
  interval_cases d <;> decide

/-- `digitVal` inverts `digitChar` on decimal digits. -/
theorem digitVal_digitChar (d : ℕ) (hd : d < 10) : digitVal (digitChar d) = d := by
  interval_cases d <;> decide

/-- Lowercasing fixes digit characters. -/
theorem toLower_digitChar (d : ℕ) (hd : d < 10) : Char.toLower (digitChar d) = digitChar d := by
  interval_cases d <;> decide

/-! ## The parsed value in natural-number form -/

/-- Truncating `(I + F / 10^L) * m` equals natural division by `10^L`. -/
theorem floorValue_eq (I F L m : ℕ) :
    (⌊((I : ℚ) + (F : ℚ) / 10 ^ L) * (m : ℚ)⌋).toNat = (I * 10 ^ L + F) * m / 10 ^ L := by
  have h : ((I : ℚ) + (F : ℚ) / 10 ^ L) * (m : ℚ) =
      (((I * 10 ^ L + F) * m : ℕ) : ℚ) / ((10 ^ L : ℕ) : ℚ) := by
    have h10 : ((10 : ℚ)) ^ L ≠ 0 := by positivity
    push_cast
    field_simp
  rw [h, Int.floor_toNat, Nat.floor_div_nat, Nat.floor_natCast]

/-- `parseCore` computes exactly the natural-number values of `parseCoreN`. -/
theorem parseCore_eq_parseCoreN (cs : List Char) : parseCore cs = parseCoreN cs := by
  unfold parseCore parseCoreN
  rcases h : scanNumber cs with _ | ⟨⟨ds, fs⟩, rest⟩
  · rfl
  · rcases rest with _ | ⟨u, rest⟩
    · rfl
    · rcases hu : unitMult u with _ | mult <;> simp only [hu, floorValue_eq]

/-! ## Scanner soundness and completeness against the size-label pattern -/

/-- Only the three lowercase unit letters are recognised by `unitMult`. -/
theorem unitMult_some (u : Char) (m : ℕ) (h : unitMult u = some m) :
    u = 'm' ∨ u = 'b' ∨ u = 't' := by
  unfold unitMult at h
  by_cases h1 : u = 'm'
  · exact Or.inl h1
  · rw [if_neg h1] at h
    by_cases h2 : u = 'b'
    · exact Or.inr (Or.inl h2)
    · rw [if_neg h2] at h
      by_cases h3 : u = 't'
      · exact Or.inr (Or.inr h3)
      · rw [if_neg h3] at h
        cases h

/-- Each unit letter has a multiplier. -/
theorem unitMult_of_unit (u : Char) (hu : u = 'm' ∨ u = 'b' ∨ u = 't') :
    ∃ m, unitMult u = some m := by
  rcases hu with rfl | rfl | rfl <;> exact ⟨_, rfl⟩

/-- Unit letters are not digits. -/
theorem unit_not_digit (u : Char) (hu : u = 'm' ∨ u = 'b' ∨ u = 't') :
    u.isDigit = false := by
  rcases hu with rfl | rfl | rfl <;> decide

/-- Unit letters are not the decimal point. -/
theorem unit_ne_dot (u : Char) (hu : u = 'm' ∨ u = 'b' ∨ u = 't') : u ≠ '.' := by
  rcases hu with rfl | rfl | rfl <;> decide

/-- What a successful number scan says about the input. -/
theorem scanNumber_sound (cs ds fs rest : List Char)
    (h : scanNumber cs = some ((ds, fs), rest)) :
    cs = ds ++ (if fs = [] then [] else '.' :: fs) ++ rest ∧ ds ≠ [] ∧
    (∀ c ∈ ds, c.isDigit = true) ∧ (∀ c ∈ fs, c.isDigit = true) := by
  have happ := takeDigitChars_append_eq cs
  have hdig := takeDigitChars_all_digits cs
  unfold scanNumber at h
  by_cases h1 : (takeDigitChars cs).1 = []
  · rw [if_pos h1] at h
    cases h
  · rw [if_neg h1] at h
    rcases h2 : (takeDigitChars cs).2 with _ | ⟨c, cs2⟩
    · rw [h2] at h
      simp only [Option.some.injEq, Prod.mk.injEq] at h
      obtain ⟨⟨hds, hfs⟩, hrest⟩ := h
      subst hds
      subst hfs
      subst hrest
      rw [h2] at happ
      refine ⟨by simpa using happ.symm, h1, hdig, by simp⟩
    · rw [h2] at h
      simp only [] at h
      by_cases hc : c = '.'
      · subst hc
        rw [if_pos rfl] at h
        by_cases h3 : (takeDigitChars cs2).1 = []
        · rw [if_pos h3] at h
          simp only [Option.some.injEq, Prod.mk.injEq] at h
          obtain ⟨⟨hds, hfs⟩, hrest⟩ := h
          subst hds
          subst hfs
          subst hrest
          rw [h2] at happ
          exact ⟨by simpa using happ.symm, h1, hdig, by simp⟩
        · rw [if_neg h3] at h
          simp only [Option.some.injEq, Prod.mk.injEq] at h
          obtain ⟨⟨hds, hfs⟩, hrest⟩ := h
          subst hds
          subst hfs
          subst hrest
          have happ2 := takeDigitChars_append_eq cs2
          rw [h2] at happ
          refine ⟨?_, h1, hdig, takeDigitChars_all_digits cs2⟩
          rw [if_neg h3]
          calc cs = (takeDigitChars cs).1 ++ ('.' :: cs2) := happ.symm
            _ = (takeDigitChars cs).1 ++
                ('.' :: ((takeDigitChars cs2).1 ++ (takeDigitChars cs2).2)) := by rw [happ2]
            _ = (takeDigitChars cs).1 ++ ('.' :: (takeDigitChars cs2).1) ++
                (takeDigitChars cs2).2 := by simp
      · rw [if_neg hc] at h
        simp only [Option.some.injEq, Prod.mk.injEq] at h
        obtain ⟨⟨hds, hfs⟩, hrest⟩ := h
        subst hds
        subst hfs
        subst hrest
        rw [h2] at happ
        exact ⟨by simpa using happ.symm, h1, hdig, by simp⟩

/-- Completeness of the scan when the pattern has no fractional part. -/
theorem scanNumber_complete_nofrac (ds rest : List Char) (hne : ds ≠ [])
    (hds : ∀ c ∈ ds, c.isDigit = true)
    (hhead : ∀ c r', rest = c :: r' → c.isDigit = false)
    (hdot : ∀ r', rest ≠ '.' :: r') :
    scanNumber (ds ++ rest) = some ((ds, []), rest) := by
  unfold scanNumber
  rw [takeDigitChars_eq ds rest hds hhead]
  simp only
  rw [if_neg hne]
  rcases rest with _ | ⟨c, r⟩
  · rfl
  · have hc : ¬ c = '.' := fun hcc => hdot r (by rw [hcc])
    simp only []
    rw [if_neg hc]

/-- Completeness of the scan when the pattern has a fractional part. -/
theorem scanNumber_complete_frac (ds fs rest : List Char) (hne : ds ≠ []) (hfs : fs ≠ [])
    (hds : ∀ c ∈ ds, c.isDigit = true) (hfsd : ∀ c ∈ fs, c.isDigit = true)
    (hhead : ∀ c r', rest = c :: r' → c.isDigit = false) :
    scanNumber (ds ++ '.' :: (fs ++ rest)) = some ((ds, fs), rest) := by
  unfold scanNumber
  rw [takeDigitChars_eq ds ('.' :: (fs ++ rest)) hds (fun c r' hcr => by
    injection hcr with hc1 hc2
    rw [← hc1]
    decide)]
  try simp only []
  rw [if_neg hne]
  simp only [if_true]
  rw [takeDigitChars_eq fs rest hfsd hhead]
  try simp only []
  rw [if_neg hfs]

/-- The parser succeeds on every character list with a size-label prefix. -/
theorem parseCore_isSome_of_matchesL (cs : List Char) (h : matchesL cs) :
    (parseCore cs).isSome = true := by
  obtain ⟨ds, opt, u, rest, hcs, hne, hds, hopt, hu⟩ := h
  obtain ⟨m, hm⟩ := unitMult_of_unit u hu
  have hund : u.isDigit = false := unit_not_digit u hu
  subst hcs
  rcases hopt with rfl | ⟨fs, hfs, hfsd, rfl⟩
  · have hscan : scanNumber (ds ++ [] ++ u :: rest) = some ((ds, []), u :: rest) := by
      rw [List.append_nil]
      exact scanNumber_complete_nofrac ds (u :: rest) hne hds
        (fun c r' hcr => by
          injection hcr with hc1 hc2
          rw [← hc1]
          exact hund)
        (fun r' hdot => by
          injection hdot with hc1 hc2
          exact unit_ne_dot u hu hc1)
    unfold parseCore
    rw [hscan]
    try simp only []
    rw [hm]
    rfl
  · have hstep : ds ++ ('.' :: fs) ++ u :: rest = ds ++ '.' :: (fs ++ u :: rest) := by simp
    have hscan : scanNumber (ds ++ ('.' :: fs) ++ u :: rest) = some ((ds, fs), u :: rest) := by
      rw [hstep]
      exact scanNumber_complete_frac ds fs (u :: rest) hne hfs hds hfsd
        (fun c r' hcr => by
          injection hcr with hc1 hc2
          rw [← hc1]
          exact hund)
    unfold parseCore
    rw [hscan]
    try simp only []
    rw [hm]
    rfl

/-- What a successful parse says about the input and the returned value. -/
theorem parseCore_sound (cs : List Char) (v : ℕ) (h : parseCore cs = some v) :
    ∃ ds fs u rest mult, cs = ds ++ (if fs = [] then [] else '.' :: fs) ++ u :: rest ∧
      ds ≠ [] ∧ (∀ c ∈ ds, c.isDigit = true) ∧ (∀ c ∈ fs, c.isDigit = true) ∧
      unitMult u = some mult ∧
      v = (digitsToNat (ds.map digitVal) * 10 ^ fs.length +
        digitsToNat (fs.map digitVal)) * mult / 10 ^ fs.length := by
  rw [parseCore_eq_parseCoreN] at h
  unfold parseCoreN at h
  rcases hs : scanNumber cs with _ | ⟨⟨ds, fs⟩, rest⟩
  · rw [hs] at h
    cases h
  · rw [hs] at h
    try simp only [] at h
    rcases rest with _ | ⟨u, rest⟩
    · try simp only [] at h
      cases h
    · try simp only [] at h
      rcases hm : unitMult u with _ | mult
      · rw [hm] at h
        try simp only [] at h
        cases h
      · rw [hm] at h
        try simp only [] at h
        obtain ⟨hcs, hne, hds, hfs⟩ := scanNumber_sound cs ds fs (u :: rest) hs
        simp only [Option.some.injEq] at h
        exact ⟨ds, fs, u, rest, mult, hcs, hne, hds, hfs, hm, h.symm⟩

/-- A successful parse exhibits a size-label prefix. -/
theorem matchesL_of_parseCore (cs : List Char) (v : ℕ) (h : parseCore cs = some v) :
    matchesL cs := by
  obtain ⟨ds, fs, u, rest, mult, hcs, hne, hds, hfs, hm, -⟩ := parseCore_sound cs v h
  refine ⟨ds, if fs = [] then [] else '.' :: fs, u, rest, hcs, hne, hds, ?_,
    unitMult_some u mult hm⟩
  by_cases hfse : fs = []
  · left
    rw [if_pos hfse]
  · right
    exact ⟨fs, hfse, hfs, by rw [if_neg hfse]⟩

/-! ## Claim theorems: the size-label parser -/

/-- C8 (amended): `parse_model_size` succeeds exactly when a PREFIX of the
input matches `<digits>[.<digits>]<unit>` case-insensitively (the source
regex is unanchored at the end); `parse("bad")` fails; and a returned value
is always the matched number times the unit multiplier, truncated to an
integer. -/
theorem parse_model_size_characterisation :
    (∀ s : String, (parse_model_size s).isSome = true ↔ sizePrefixMatch s) ∧
    parse_model_size ("bad") = none ∧
    (∀ s v, parse_model_size s = some v →
      ∃ ds fs u rest mult,
        s.data.map Char.toLower = ds ++ (if fs = [] then [] else '.' :: fs) ++ u :: rest ∧
        unitMult u = some mult ∧
        v = (digitsToNat (ds.map digitVal) * 10 ^ fs.length +
          digitsToNat (fs.map digitVal)) * mult / 10 ^ fs.length) := by
  refine ⟨?_, by decide, ?_⟩
  · intro s
    constructor
    · intro h
      obtain ⟨v, hv⟩ := Option.isSome_iff_exists.mp h
      exact matchesL_of_parseCore _ v hv
    · intro h
      exact parseCore_isSome_of_matchesL _ h
  · intro s v hv
    obtain ⟨ds, fs, u, rest, mult, hcs, hne, hds, hfs, hm, hval⟩ :=
      parseCore_sound _ v hv
    exact ⟨ds, fs, u, rest, mult, hcs, hm, hval⟩

/-- Witness for C8 at the input "1m", value 10^6. -/
theorem parse_model_size_characterisation_witness :
    ∃ ds fs u rest mult,
      ("1m").data.map Char.toLower = ds ++ (if fs = [] then [] else '.' :: fs) ++ u :: rest ∧
      unitMult u = some mult ∧
      (1000000 : ℕ) = (digitsToNat (ds.map digitVal) * 10 ^ fs.length +
        digitsToNat (fs.map digitVal)) * mult / 10 ^ fs.length :=
  parse_model_size_characterisation.2.2 ("1m") 1000000 (by
    unfold parse_model_size
    rw [parseCore_eq_parseCoreN]
    decide)

/-- Counterexample for C8 as stated: "1mX" does not fully match the pattern —
its last character is no unit letter — yet parsing succeeds with the value of
the matched prefix "1m". -/
theorem parse_unanchored_counterexample :
    parse_model_size ("1mX") = some 1000000 ∧ ¬ sizeFullMatch ("1mX") := by
  constructor
  · unfold parse_model_size
    rw [parseCore_eq_parseCoreN]
    decide
  · rintro ⟨ds, opt, u, heq, hne, hds, hopt, hu⟩
    have hmap : ("1mX").data.map Char.toLower = ['1', 'm', 'x'] := by decide
    rw [hmap] at heq
    have h1 : (ds ++ opt ++ [u]).getLast? = some 'x' := by
      rw [← heq]
      rfl
    rw [List.getLast?_concat] at h1
    injection h1 with h1
    rw [h1] at hu
    rcases hu with hx | hx | hx <;> cases hx

/-- C10: `parse_model_size` succeeds on every string with a size-label prefix,
whatever the trailing characters; "1.5TB" parses to 1.5 × 10^12 and
"7Billion" to 7 × 10^9. -/
theorem parse_prefix_trailing_ignored :
    (∀ s : String, sizePrefixMatch s → (parse_model_size s).isSome = true) ∧
    parse_model_size ("1.5TB") = some 1500000000000 ∧
    parse_model_size ("7Billion") = some 7000000000 := by
  refine ⟨fun s h => parseCore_isSome_of_matchesL _ h, ?_, ?_⟩ <;>
    · unfold parse_model_size
      rw [parseCore_eq_parseCoreN]
      decide

/-- Witness for C10 at the input "1.5TB". -/
theorem parse_prefix_trailing_ignored_witness :
    sizePrefixMatch ("1.5TB") ∧ (parse_model_size ("1.5TB")).isSome = true :=
  have hm : sizePrefixMatch ("1.5TB") :=
    ⟨['1'], ['.', '5'], 't', ['b'], by decide, by decide, by decide,
      Or.inr ⟨['5'], by decide, by decide, rfl⟩, Or.inr (Or.inr rfl)⟩
  ⟨hm, parse_prefix_trailing_ignored.1 ("1.5TB") hm⟩

/-! ## Round-trip of `format_model_size` through `parse_model_size` -/

/-- Appending strings concatenates their character data. -/
theorem string_data_append (a b : String) : (a ++ b).data = a.data ++ b.data := by
  cases a
  cases b
  rfl

/-- The character data of a one-decimal rendering. -/
theorem fmtOneDecimal_data (n t : ℕ) (u : Char) :
    (fmtOneDecimal n t u).data =
      (digitList ((10 * n + t / 2) / t / 10)).map digitChar ++
        '.' :: ((digitList ((10 * n + t / 2) / t % 10)).map digitChar ++ [u]) := by
  unfold fmtOneDecimal natRepr
  rw [string_data_append, string_data_append, string_data_append]
  simp

/-- Lowercasing fixes a rendered digit string. -/
theorem map_toLower_digit_list (l : List ℕ) (hl : ∀ d ∈ l, d < 10) :
    (l.map digitChar).map Char.toLower = l.map digitChar := by
  induction l with
  | nil => rfl
  | cons d t ih =>
    simp only [List.map_cons, List.cons.injEq]
    exact ⟨toLower_digitChar d (hl d (List.mem_cons_self d t)),
      ih (fun x hx => hl x (List.mem_cons_of_mem d hx))⟩

/-- Reading the digit values back off a rendered digit string. -/
theorem map_digitVal_digit_list (l : List ℕ) (hl : ∀ d ∈ l, d < 10) :
    (l.map digitChar).map digitVal = l := by
  induction l with
  | nil => rfl
  | cons d t ih =>
    simp only [List.map_cons, List.cons.injEq]
    exact ⟨digitVal_digitChar d (hl d (List.mem_cons_self d t)),
      ih (fun x hx => hl x (List.mem_cons_of_mem d hx))⟩

/-- A rendered digit string consists of digit characters. -/
theorem digitList_chars_digits (m : ℕ) :
    ∀ c ∈ (digitList m).map digitChar, c.isDigit = true := by
  intro c hc
  obtain ⟨d, hd, rfl⟩ := List.mem_map.mp hc
  exact digitChar_isDigit d (digitList_lt m d hd)

/-- A rendered digit string is never empty. -/
theorem digitList_chars_ne_nil (m : ℕ) : (digitList m).map digitChar ≠ [] := by
  intro hmap
  exact digitList_ne_nil m (List.map_eq_nil.mp hmap)

/-- A one-element digit list reads back as its digit. -/
theorem digitsToNat_single (d : ℕ) : digitsToNat [d] = d := by
  unfold digitsToNat
  simp

/-- Parsing a one-decimal rendering recovers the rounded-tenths value scaled
by the unit multiplier and truncated: `parse(f"{n / t:.1f}" + unit)` is
`k * t / 10` with `k = (10 * n + t / 2) / t`. -/
theorem parse_fmtOneDecimal (n t : ℕ) (u : Char)
    (hu : unitMult (Char.toLower u) = some t) :
    parse_model_size (fmtOneDecimal n t u) = some ((10 * n + t / 2) / t * t / 10) := by
  have hw := unitMult_some (Char.toLower u) t hu
  have hwd : (Char.toLower u).isDigit = false := unit_not_digit _ hw
  have hF : (10 * n + t / 2) / t % 10 < 10 := Nat.mod_lt _ (by norm_num)
  have hFL : digitList ((10 * n + t / 2) / t % 10) = [(10 * n + t / 2) / t % 10] :=
    digitList_single _ hF
  have hdot : Char.toLower '.' = '.' := by decide
  unfold parse_model_size
  rw [fmtOneDecimal_data, hFL]
  rw [List.map_append, List.map_cons, List.map_append]
  rw [map_toLower_digit_list _ (digitList_lt _), hdot]
  rw [show ([(10 * n + t / 2) / t % 10].map digitChar).map Char.toLower =
      [(10 * n + t / 2) / t % 10].map digitChar from
    map_toLower_digit_list _ (fun d hd => by
      simp only [List.mem_singleton] at hd
      rw [hd]
      exact hF)]
  rw [show ([u].map Char.toLower) = [Char.toLower u] from rfl]
  rw [parseCore_eq_parseCoreN]
  unfold parseCoreN
  rw [scanNumber_complete_frac _ _ _ (digitList_chars_ne_nil _) (by simp)
    (digitList_chars_digits _)
    (fun c hc => by
      simp only [List.mem_map, List.mem_singleton] at hc
      obtain ⟨d, rfl, rfl⟩ := hc
      exact digitChar_isDigit _ hF)
    (fun c r' hcr => by
      injection hcr with hc1 hc2
      rw [← hc1]
      exact hwd)]
  try simp only []
  rw [hu]
  try simp only []
  rw [map_digitVal_digit_list _ (digitList_lt _), digitsToNat_digitList]
  rw [show ([(10 * n + t / 2) / t % 10].map digitChar).map digitVal =
      [(10 * n + t / 2) / t % 10] from
    map_digitVal_digit_list _ (fun d hd => by
      simp only [List.mem_singleton] at hd
      rw [hd]
      exact hF)]
  rw [digitsToNat_single]
  simp only [List.length_map, List.length_singleton, pow_one]
  congr 1
  have hk : (10 * n + t / 2) / t / 10 * 10 + (10 * n + t / 2) / t % 10 =
      (10 * n + t / 2) / t := by omega
  rw [hk]

/-- The rounded value recovered from a formatted label is within five percent
of the original once the original is at least the formatting threshold. -/
theorem roundtrip_bound (n t : ℕ) (ht : t = 10 ^ 6 ∨ t = 10 ^ 9 ∨ t = 10 ^ 12)
    (hn : t ≤ n) :
    20 * |(((10 * n + t / 2) / t * t / 10 : ℕ) : ℤ) - (n : ℤ)| ≤ (n : ℤ) := by
  rcases abs_cases ((((10 * n + t / 2) / t * t / 10 : ℕ) : ℤ) - (n : ℤ)) with ⟨h1, h2⟩ | ⟨h1, h2⟩ <;>
    rw [h1] <;> rcases ht with rfl | rfl | rfl <;> norm_num at hn ⊢ <;> omega

/-- C6: for every parameter count of at least one million, parsing the label
produced by formatting recovers a value within five percent of the original
(`20 * |v - n| ≤ n`). -/
theorem format_parse_roundtrip (n : ℕ) (hn : 10 ^ 6 ≤ n) :
    ∃ v, parse_model_size (format_model_size n) = some v ∧
      20 * |(v : ℤ) - (n : ℤ)| ≤ (n : ℤ) := by
  unfold format_model_size
  by_cases h12 : 10 ^ 12 ≤ n
  · rw [if_pos h12]
    exact ⟨_, parse_fmtOneDecimal n (10 ^ 12) 'T' (by decide),
      roundtrip_bound n (10 ^ 12) (Or.inr (Or.inr rfl)) h12⟩
  · rw [if_neg h12]
    by_cases h9 : 10 ^ 9 ≤ n
    · rw [if_pos h9]
      exact ⟨_, parse_fmtOneDecimal n (10 ^ 9) 'B' (by decide),
        roundtrip_bound n (10 ^ 9) (Or.inr (Or.inl rfl)) h9⟩
    · rw [if_neg h9, if_pos hn]
      exact ⟨_, parse_fmtOneDecimal n (10 ^ 6) 'M' (by decide),
        roundtrip_bound n (10 ^ 6) (Or.inl rfl) hn⟩

/-- Witness for C6 at `n = 7000000000`. -/
theorem format_parse_roundtrip_witness :
    ∃ v, parse_model_size (format_model_size 7000000000) = some v ∧
      20 * |(v : ℤ) - (7000000000 : ℤ)| ≤ (7000000000 : ℤ) :=
  format_parse_roundtrip 7000000000 (by norm_num)

end Cfit
